import Mathlib

/-!
Verification of the untwister PRNG-recovery engine (`src/untwister.cpp`,
`src/prngs/GlibcRand.cpp`) against its natural-language specification.

The C++ is shallowly embedded: 32-bit quantities become `Nat` (no arithmetic
in the modelled fragments overflows), `double` confidences and scores become
`ℚ`, the generator a worker owns becomes a stream `ℕ → ℕ` of outputs
determined by the installed seed, and the abstract PRNG interface used by
state inference becomes a structure of operations over an explicit state
type `σ`.
-/

namespace Untwister

/-! ### Brute-force worker (`BruteForce`, untwister.cpp lines 73-118)

A worker owns a fresh generator; seeding it with `s` determines its output
stream, modelled as `gen s : ℕ → ℕ` (the spec's seeding-determinism
invariant).  The inner depth loop reads `observedOutputs[matchesFound]`,
compares it with the next output, and breaks once every observation has been
matched in order. -/

/-- The per-seed matching loop of `BruteForce` (lines 86-100): `fuel` is the
number of remaining iterations of `for (index = 0; index < depth; index++)`,
`idx` the current loop index, `m` the current `matchesFound`. -/
def bfMatchesAux (stream : ℕ → ℕ) (obs : List ℕ) : ℕ → ℕ → ℕ → ℕ
  | 0, _, m => m
  | fuel + 1, idx, m =>
    let nextRand := stream idx
    let observed := obs.getD m 0
    if observed = nextRand then
      if m + 1 = obs.length then m + 1
      else bfMatchesAux stream obs fuel (idx + 1) (m + 1)
    else bfMatchesAux stream obs fuel (idx + 1) m

/-- `matchesFound` after the depth loop for one seed. -/
def bfMatches (stream : ℕ → ℕ) (obs : List ℕ) (depth : ℕ) : ℕ :=
  bfMatchesAux stream obs depth 0 0

/-- Variant of the matching loop in which the read
`observedOutputs[matchesFound]` is bounds-checked: it returns `none` as soon
as the read would be out of bounds.  Agreement with `bfMatchesAux` expresses
that every read of the real loop is in bounds. -/
def bfMatchesAuxChecked (stream : ℕ → ℕ) (obs : List ℕ) :
    ℕ → ℕ → ℕ → Option ℕ
  | 0, _, m => some m
  | fuel + 1, idx, m =>
    match obs.get? m with
    | none => none
    | some observed =>
      let nextRand := stream idx
      if observed = nextRand then
        if m + 1 = obs.length then some (m + 1)
        else bfMatchesAuxChecked stream obs fuel (idx + 1) (m + 1)
      else bfMatchesAuxChecked stream obs fuel (idx + 1) m

/-- The confidence computed at line 108:
`((double) matchesFound / (double) observedOutputs.size()) * 100.0`. -/
def bfConfidence (m : ℕ) (obs : List ℕ) : ℚ :=
  ((m : ℚ) / (obs.length : ℚ)) * 100

/-- The seed loop of `BruteForce` (lines 82-116).  `fuel` counts the seeds
still to be visited of the inclusive range (`seedIndex <= endingSeed`), `s`
is the current `seedIndex` and `flag` the shared `isCompleted` flag as this
worker observes it; the result is the worker's answer list together with the
final flag value.  As in the source, the completion check sits between the
matching loop and the recording of the answer, and the flag is raised only
after a full match has been recorded. -/
def bruteForceAux (gen : ℕ → ℕ → ℕ) (obs : List ℕ) (minConf : ℚ)
    (depth : ℕ) : ℕ → ℕ → Bool → List (ℕ × ℚ) × Bool
  | 0, _, flag => ([], flag)
  | fuel + 1, s, flag =>
    let m := bfMatches (gen s) obs depth
    if flag then ([], flag)
    else
      let confidence := bfConfidence m obs
      let here : List (ℕ × ℚ) := if minConf ≤ confidence then [(s, confidence)] else []
      let flag' := if m = obs.length then true else flag
      let rest := bruteForceAux gen obs minConf depth fuel (s + 1) flag'
      (here ++ rest.1, rest.2)

/-- One brute-force worker run over the inclusive seed interval
`[startS, endS]` with the completion flag initially clear. -/
def bruteForce (gen : ℕ → ℕ → ℕ) (obs : List ℕ) (minConf : ℚ)
    (startS endS depth : ℕ) : List (ℕ × ℚ) :=
  (bruteForceAux gen obs minConf depth (endS + 1 - startS) startS false).1

/-- The first `D` outputs of a generator freshly seeded with `s`. -/
def firstOutputs (gen : ℕ → ℕ → ℕ) (s D : ℕ) : List ℕ :=
  (List.range D).map (gen s)

/-! ### Work partitioner (`DivisionOfLabor`, untwister.cpp lines 156-174) -/

/-- The loop of `DivisionOfLabor`: `count` iterations remain, `leftover` is
the running remainder counter. -/
def divisionOfLaborAux (work : ℕ) : ℕ → ℕ → List ℕ
  | 0, _ => []
  | count + 1, leftover =>
    if 0 < leftover then (work + 1) :: divisionOfLaborAux work count (leftover - 1)
    else work :: divisionOfLaborAux work count leftover

/-- `DivisionOfLabor(sizeOfWork, numberOfWorkers)`: divide `W` seeds among
`N` workers. -/
def divisionOfLabor (W N : ℕ) : List ℕ :=
  divisionOfLaborAux (W / N) N (W % N)

/-! ### Thread spawning (`SpawnThreads`, untwister.cpp lines 176-199)

Worker `id` is handed the inclusive range `[startAt, startAt + labor[id]]`
where `startAt` is `lowerBoundSeed` plus the labor of all earlier workers. -/

/-- `startAt` for worker `id`. -/
def workerStart (lower : ℕ) (labor : List ℕ) (id : ℕ) : ℕ :=
  lower + (labor.take id).sum

/-- The `(startingSeed, endingSeed)` pair passed to worker `id`'s
`BruteForce` call; the worker's loop runs `seedIndex` over this range
inclusively. -/
def workerInterval (lower W N id : ℕ) : ℕ × ℕ :=
  let labor := divisionOfLabor W N
  (workerStart lower labor id, workerStart lower labor id + labor.getD id 0)

/-! ### GlibcRand state accessors (`GlibcRand.cpp` lines 43-52)

`setState` copies the input and then `resize`s it to
`GLIBC_RAND_STATE_SIZE`, truncating or zero-padding; `getState` returns the
stored vector.  The numeric value of `GLIBC_RAND_STATE_SIZE` lives in a
header outside the sources, so the model is parametric in it. -/

/-- `std::vector::resize(n, 0)`: truncate to `n` elements or append zeros up
to `n` elements. -/
def vectorResize (l : List ℕ) (n : ℕ) : List ℕ :=
  l.take n ++ List.replicate (n - l.length) 0

/-- `GlibcRand::setState`: the member state after the call, for state size
`k = GLIBC_RAND_STATE_SIZE`. -/
def glibcSetState (k : ℕ) (inState : List ℕ) : List ℕ :=
  vectorResize inState k

/-- `GlibcRand::getState`: returns the member state unchanged. -/
def glibcGetState (mState : List ℕ) : List ℕ :=
  mState

/-! ### The PRNG interface used by state inference (`prngs/PRNG.h` callers)

`InferState` manipulates a generator only through the virtual interface:
installing a state, supplying evidence, tuning, predicting in both
directions, reversing to a seed, and reading the state back.  The generator
object is stateful, so every operation threads an explicit generator state
of some type `σ`; operations that may mutate return the new state. -/

structure PRNGops (σ : Type) where
  stateSize : ℕ
  setState : List ℕ → σ → σ
  setEvidence : List ℕ → σ → σ
  tune : List ℕ → List ℕ → σ → σ
  predictForward : ℕ → σ → List ℕ × σ
  predictBackward : ℕ → σ → List ℕ × σ
  reverseToSeed : ℕ → σ → Option ℕ × σ
  getState : σ → List ℕ

/-! ### State inference (`InferState`, untwister.cpp lines 235-351) -/

/-- Forward scoring loop (lines 279-290): `o` is `index_obs`, the list the
remaining `predictions_forward`; the loop stops as soon as `o` reaches
`observedOutputs.size()`. -/
def fwdCount (obs : List ℕ) : ℕ → List ℕ → ℕ
  | _, [] => 0
  | o, p :: ps =>
    if o < obs.length then
      if obs.getD o 0 = p then 1 + fwdCount obs (o + 1) ps
      else fwdCount obs o ps
    else 0

/-- Backward scoring loop (lines 292-303): `o` is `index_obs`, counting
down; the guard is `index_obs > 0`, so index 0 is never tested. -/
def bwdCount (obs : List ℕ) : ℕ → List ℕ → ℕ
  | _, [] => 0
  | o, p :: ps =>
    if 0 < o then
      if obs.getD o 0 = p then 1 + bwdCount obs (o - 1) ps
      else bwdCount obs o ps
    else 0

/-- One iteration of the window loop up to the scoring decision (lines
255-303): install the window `O[i : i+k]` as the state, supply evidence,
tune, predict, and score.  Returns `matchesFound` and the generator state
after the two prediction calls. -/
def windowEval {σ : Type} (P : PRNGops σ) (obs : List ℕ) (k i : ℕ)
    (g : σ) : ℕ × σ :=
  let state := (obs.drop i).take k
  let evidenceForward := obs.take i
  let evidenceBackward := obs.drop (i + k + 1)
  let g1 := P.setState state g
  let g2 := P.setEvidence obs g1
  let g3 := P.tune evidenceForward evidenceBackward g2
  let pf := P.predictForward (obs.length - k - i) g3
  let pb := P.predictBackward i pf.2
  (fwdCount obs (i + k) pf.1 + bwdCount obs i pb.1, pb.2)

/-- Result of `InferState` as observable at its output statements:
`notEnough` is the insufficient-observations warning (return `false`),
`foundSeed`/`foundState` the perfect-match reports (return `true`),
`bestGuess` the positive-highscore report and `failed` the
"State Inference failed" message (both return `false`). -/
inductive InferResult : Type
  | notEnough : InferResult
  | foundSeed : ℕ → InferResult
  | foundState : List ℕ → InferResult
  | bestGuess : ℚ → List ℕ → InferResult
  | failed : InferResult
  deriving DecidableEq, Repr

/-- The window loop (lines 255-332) together with the post-loop analysis
(lines 336-348).  `count` windows remain starting at index `i`; `highscore`
and `best` are the loop-carried `highscore` and `best_state`.  As in the
source, `highscore` is compared against but never reassigned.  The second
component counts how many windows were examined. -/
def inferLoopAux {σ : Type} (P : PRNGops σ) (obs : List ℕ) (k : ℕ) :
    ℕ → ℕ → σ → ℚ → List ℕ → InferResult × ℕ
  | 0, _, g, highscore, _ =>
    (if 0 < highscore then .bestGuess highscore (P.getState g) else .failed, 0)
  | count + 1, i, g, highscore, best =>
    let me := windowEval P obs k i g
    if me.1 = obs.length - k then
      match P.reverseToSeed 10000 me.2 with
      | (some outSeed, _) => (.foundSeed outSeed, 1)
      | (none, g6) => (.foundState (P.getState g6), 1)
    else
      let score : ℚ := ((me.1 * 100 : ℕ) : ℚ) / ((obs.length - k : ℕ) : ℚ)
      let best' := if highscore < score then P.getState me.2 else best
      let rest := inferLoopAux P obs k count (i + 1) me.2 highscore best'
      (rest.1, rest.2 + 1)

/-- `InferState` (lines 235-351) with the number of windows examined. -/
def inferStateAux {σ : Type} (P : PRNGops σ) (obs : List ℕ) (g0 : σ) :
    InferResult × ℕ :=
  if obs.length ≤ P.stateSize then (.notEnough, 0)
  else inferLoopAux P obs P.stateSize (obs.length - P.stateSize) 0 g0 0 []

/-- The observable result of `InferState`. -/
def inferState {σ : Type} (P : PRNGops σ) (obs : List ℕ) (g0 : σ) :
    InferResult :=
  (inferStateAux P obs g0).1

/-- How many windows the loop examined before returning. -/
def inferWindows {σ : Type} (P : PRNGops σ) (obs : List ℕ) (g0 : σ) : ℕ :=
  (inferStateAux P obs g0).2

/-- The boolean `InferState` returns: `true` exactly on the perfect-match
reports (lines 305-324). -/
def inferReturn : InferResult → Bool
  | .foundSeed _ => true
  | .foundState _ => true
  | _ => false

/-- `main` (lines 472-477): `FindSeed` (the brute-force search) runs exactly
when `InferState` returned `false`. -/
def bruteForceRuns {σ : Type} (P : PRNGops σ) (obs : List ℕ) (g0 : σ) :
    Bool :=
  !(inferReturn (inferState P obs g0))

/-- Generator state at the start of window `i`, threading the loop from the
fresh generator `g0` through windows `0, …, i-1`. -/
def genAt {σ : Type} (P : PRNGops σ) (obs : List ℕ) (k : ℕ) (g0 : σ) :
    ℕ → σ
  | 0 => g0
  | i + 1 => (windowEval P obs k i (genAt P obs k g0 i)).2

/-! ### The shared completion flag (`isCompleted`)

`isCompleted` is written in exactly two places: `BruteForce` line 115
(`isCompleted = true`, guarded by a full match) and `StatusThread` line 146
(`isCompleted = (100.0 <= percent)`, where `percent` was computed from the
progress counters in the lines just above).  The interleaving of these
threads is modelled as a step relation on the shared state: the reporter's
body is split at instruction granularity into computing `percent` from the
counters (lines 140-145) and storing the comparison into the flag (line
146), with worker stores free to interleave. -/

/-- `percent` as computed by `StatusThread` lines 140-145. -/
def aggregatePercent (statuses : List ℕ) (totalWork : ℕ) : ℚ :=
  ((statuses.sum : ℚ) / (totalWork : ℚ)) * 100

/-- Shared state visible to the flag-manipulating threads: the flag, the
per-worker progress counters, the total work, and the reporter's local
`percent` once computed and not yet stored. -/
structure LatchState : Type where
  flag : Bool
  statuses : List ℕ
  totalWork : ℕ
  pendingPercent : Option ℚ
  deriving DecidableEq, Repr

/-- One step of any thread, restricted to the instructions that touch the
shared flag and counters. -/
inductive LatchStep : LatchState → LatchState → Prop
  /-- A worker updates its progress counter (line 107). -/
  | workerStatus (s : LatchState) (id v : ℕ) :
      LatchStep s { s with statuses := s.statuses.set id v }
  /-- A worker that has just recorded a full-match answer raises the flag
  (line 115). -/
  | workerSetFlag (s : LatchState) :
      LatchStep s { s with flag := true }
  /-- The reporter, having passed the `while (!isCompleted)` check, sums the
  counters and computes `percent` (lines 138-145). -/
  | reporterCompute (s : LatchState) :
      s.flag = false → s.pendingPercent = none →
      LatchStep s
        { s with pendingPercent := some (aggregatePercent s.statuses s.totalWork) }
  /-- The reporter stores `100.0 <= percent` into the flag (line 146). -/
  | reporterStore (s : LatchState) (p : ℚ) :
      s.pendingPercent = some p →
      LatchStep s { s with flag := decide ((100 : ℚ) ≤ p), pendingPercent := none }

/-- Reachability of execution states. -/
def LatchReachable : LatchState → LatchState → Prop :=
  Relation.ReflTransGen LatchStep

/-! ### Concrete generator instances used to exercise the engine

`InferState` is written against the abstract interface; these small
instances (state type `List ℕ`, state size 1) drive it on concrete inputs.
`toyPRNG` predicts a constant stream repeating the first state word in both
directions and reverses a state to its first word. -/

def toyPRNG : PRNGops (List ℕ) where
  stateSize := 1
  setState := fun st _ => st
  setEvidence := fun _ g => g
  tune := fun _ _ g => g
  predictForward := fun n g => (List.replicate n (g.headD 0), g)
  predictBackward := fun n g => (List.replicate n (g.headD 0), g)
  reverseToSeed := fun _ g => (some (g.headD 0), g)
  getState := fun g => g

/-- Same generator but with `reverseToSeed` always failing. -/
def toyPRNGNoReverse : PRNGops (List ℕ) :=
  { toyPRNG with reverseToSeed := fun _ g => (none, g) }

/-! ### Helper lemmas -/

theorem getD_replicate_of_lt {x : ℕ} :
    ∀ {n i : ℕ}, i < n → (List.replicate n x).getD i 0 = x := by
  intro n
  induction n with
  | zero => intro i hi; omega
  | succ n ih =>
    intro i hi
    cases i with
    | zero => rfl
    | succ i => exact ih (by omega)

/-- Closed form of the `DivisionOfLabor` loop. -/
theorem divisionOfLaborAux_eq (work : ℕ) :
    ∀ (count leftover : ℕ), leftover ≤ count →
      divisionOfLaborAux work count leftover =
        List.replicate leftover (work + 1) ++
          List.replicate (count - leftover) work := by
  intro count
  induction count with
  | zero =>
    intro leftover h
    interval_cases leftover
    rfl
  | succ count ih =>
    intro leftover h
    cases leftover with
    | zero =>
      rw [divisionOfLaborAux, if_neg (by omega), ih 0 (by omega)]
      simp [List.replicate_succ]
    | succ l =>
      rw [divisionOfLaborAux, if_pos (by omega)]
      rw [show l + 1 - 1 = l by omega, ih l (by omega)]
      simp [List.replicate_succ, Nat.succ_sub_succ]

/-- The matching loop never pushes `matchesFound` past the observation
count. -/
theorem bfMatchesAux_le (stream : ℕ → ℕ) (obs : List ℕ) :
    ∀ (fuel idx m : ℕ), m < obs.length →
      bfMatchesAux stream obs fuel idx m ≤ obs.length := by
  intro fuel
  induction fuel with
  | zero => intro idx m hm; exact le_of_lt hm
  | succ fuel ih =>
    intro idx m hm
    rw [bfMatchesAux]
    by_cases he : obs.getD m 0 = stream idx
    · simp only [if_pos he]
      by_cases hl : m + 1 = obs.length
      · simp [hl]
      · simp only [if_neg hl]
        exact ih (idx + 1) (m + 1) (by omega)
    · simp only [if_neg he]
      exact ih (idx + 1) m hm

/-- The checked matching loop agrees with the raw one whenever
`matchesFound` starts in bounds: every read of
`observedOutputs[matchesFound]` is in bounds. -/
theorem bfMatchesAuxChecked_eq (stream : ℕ → ℕ) (obs : List ℕ) :
    ∀ (fuel idx m : ℕ), m < obs.length →
      bfMatchesAuxChecked stream obs fuel idx m =
        some (bfMatchesAux stream obs fuel idx m) := by
  intro fuel
  induction fuel with
  | zero => intro idx m _; rfl
  | succ fuel ih =>
    intro idx m hm
    rw [bfMatchesAuxChecked, bfMatchesAux]
    rw [List.get?_eq_get hm]
    simp only [List.get_eq_getElem, ← List.getD_eq_getElem obs 0 hm]
    by_cases he : obs.getD m 0 = stream idx
    · simp only [if_pos he]
      by_cases hl : m + 1 = obs.length
      · simp [hl]
      · simp only [if_neg hl]
        exact ih (idx + 1) (m + 1) (by omega)
    · simp only [if_neg he]
      exact ih (idx + 1) m hm

theorem sublist_tail_of_cons_cons {a b : ℕ} {l₁ l₂ : List ℕ}
    (h : List.Sublist (a :: l₁) (b :: l₂)) : List.Sublist l₁ l₂ := by
  cases h with
  | cons _ h => exact ((List.sublist_cons_self _ _).trans h)
  | cons₂ _ h => exact h

theorem cons_sublist_of_ne {a b : ℕ} {l₁ l₂ : List ℕ}
    (h : List.Sublist (a :: l₁) (b :: l₂)) (hne : a ≠ b) :
    List.Sublist (a :: l₁) l₂ := by
  cases h with
  | cons _ h => exact h
  | cons₂ _ h => exact absurd rfl hne

/-- The greedy matcher reaches a full match whenever the observations are an
in-order subsequence of the outputs the loop will see. -/
theorem bfMatchesAux_full_of_sublist (stream : ℕ → ℕ) (obs : List ℕ) :
    ∀ (d idx m : ℕ), m < obs.length →
      List.Sublist (obs.drop m) ((List.range' idx d).map stream) →
      bfMatchesAux stream obs d idx m = obs.length := by
  intro d
  induction d with
  | zero =>
    intro idx m hm hsub
    rw [List.range'_zero, List.map_nil, List.sublist_nil,
      List.drop_eq_nil_iff] at hsub
    omega
  | succ d ih =>
    intro idx m hm hsub
    rw [List.range'_succ, List.map_cons] at hsub
    rw [List.drop_eq_getElem_cons hm] at hsub
    rw [bfMatchesAux]
    by_cases he : obs.getD m 0 = stream idx
    · simp only [if_pos he]
      by_cases hl : m + 1 = obs.length
      · simp [hl]
      · simp only [if_neg hl]
        have hm' : m + 1 < obs.length := by omega
        exact ih (idx + 1) (m + 1) hm' (sublist_tail_of_cons_cons hsub)
    · simp only [if_neg he]
      apply ih (idx + 1) m hm
      rw [List.drop_eq_getElem_cons hm]
      rw [List.getD_eq_getElem obs 0 hm] at he
      exact cons_sublist_of_ne hsub he

/-- Full match for a whole per-seed loop run from a subsequence of the first
`depth` outputs. -/
theorem bfMatches_full_of_sublist (gen : ℕ → ℕ → ℕ) (obs : List ℕ)
    (s depth : ℕ) (hne : obs ≠ [])
    (hsub : List.Sublist obs (firstOutputs gen s depth)) :
    bfMatches (gen s) obs depth = obs.length := by
  apply bfMatchesAux_full_of_sublist (gen s) obs depth 0 0
    (by cases obs with | nil => exact absurd rfl hne | cons a l => simp)
  rw [List.drop_zero]
  rw [firstOutputs, List.range_eq_range'] at hsub
  exact hsub

/-- A full match yields confidence exactly `100`. -/
theorem bfConfidence_full (obs : List ℕ) (hne : obs ≠ []) :
    bfConfidence obs.length obs = 100 := by
  rw [bfConfidence, div_self, one_mul]
  exact_mod_cast List.length_pos.mpr hne |>.ne'

/-! ### Claims -/

/-- Claim C10: inside `BruteForce`'s per-seed depth loop every read of
`observedOutputs[matchesFound]` is in bounds whenever the observation
sequence is non-empty: the bounds-checked rendition of the loop never
signals an out-of-bounds read and computes the same `matchesFound`. -/
theorem bruteforce_reads_in_bounds (stream : ℕ → ℕ) (obs : List ℕ)
    (depth : ℕ) (hne : obs ≠ []) :
    bfMatchesAuxChecked stream obs depth 0 0 =
      some (bfMatches stream obs depth) := by
  rw [bfMatches]
  exact bfMatchesAuxChecked_eq stream obs depth 0 0 (List.length_pos.mpr hne)

/-- Witness for C10 at a concrete stream, observations and depth. -/
theorem bruteforce_reads_in_bounds_witness :
    bfMatchesAuxChecked (fun i => i) [2, 3] 5 0 0 =
      some (bfMatches (fun i => i) [2, 3] 5) :=
  bruteforce_reads_in_bounds (fun i => i) [2, 3] 5 (by decide)

/-- Claim C9: for every word sequence `w`, `GlibcRand::setState(w)` followed
by `GlibcRand::getState()` yields exactly `GLIBC_RAND_STATE_SIZE` words
(the model is parametric in that header constant `k`): if `w` is shorter the
result is `w` right-padded with zeros, and if `w` has at least `k` words the
first `k` words of `w` are preserved. -/
theorem glibc_setState_getState (k : ℕ) (w : List ℕ) :
    (glibcGetState (glibcSetState k w)).length = k ∧
    (w.length ≤ k →
      glibcGetState (glibcSetState k w) = w ++ List.replicate (k - w.length) 0) ∧
    (k ≤ w.length → glibcGetState (glibcSetState k w) = w.take k) := by
  refine ⟨?_, ?_, ?_⟩
  · simp only [glibcGetState, glibcSetState, vectorResize, List.length_append,
      List.length_take, List.length_replicate]
    omega
  · intro h
    simp [glibcGetState, glibcSetState, vectorResize, List.take_of_length_le h]
  · intro h
    simp [glibcGetState, glibcSetState, vectorResize, Nat.sub_eq_zero_of_le h]

/-- Witness for C9 with a short and a long input at concrete state sizes. -/
theorem glibc_setState_getState_witness :
    (glibcGetState (glibcSetState 3 [1, 2])).length = 3 ∧
    glibcGetState (glibcSetState 3 [1, 2]) =
      [1, 2] ++ List.replicate (3 - [1, 2].length) 0 ∧
    glibcGetState (glibcSetState 2 [7, 8, 9]) = [7, 8, 9].take 2 :=
  ⟨(glibc_setState_getState 3 [1, 2]).1,
   (glibc_setState_getState 3 [1, 2]).2.1 (by decide),
   (glibc_setState_getState 2 [7, 8, 9]).2.2 (by decide)⟩

/-- Claim C5: for every work size `W` and worker count `N ≥ 1`,
`DivisionOfLabor` returns exactly `N` sizes (non-negative by their type)
summing to `W`; the first `W mod N` entries equal `W / N + 1` and the rest
equal `W / N`, so entries are non-increasing and any two differ by at most
one. -/
theorem divisionOfLabor_sound (W N : ℕ) (hN : 1 ≤ N) :
    (divisionOfLabor W N).length = N ∧
    (divisionOfLabor W N).sum = W ∧
    (∀ i, i < N → (divisionOfLabor W N).getD i 0 =
      if i < W % N then W / N + 1 else W / N) ∧
    (∀ i j, i ≤ j → j < N →
      (divisionOfLabor W N).getD j 0 ≤ (divisionOfLabor W N).getD i 0) ∧
    (∀ i j, i < N → j < N →
      (divisionOfLabor W N).getD i 0 ≤ (divisionOfLabor W N).getD j 0 + 1) := by
  have hrem : W % N < N := Nat.mod_lt _ (by omega)
  have hle : W % N ≤ N := le_of_lt hrem
  have hform : divisionOfLabor W N =
      List.replicate (W % N) (W / N + 1) ++
        List.replicate (N - W % N) (W / N) :=
    divisionOfLaborAux_eq _ N (W % N) hle
  have hget : ∀ i, i < N → (divisionOfLabor W N).getD i 0 =
      if i < W % N then W / N + 1 else W / N := by
    intro i hi
    rw [hform]
    by_cases h : i < W % N
    · rw [if_pos h, List.getD_append _ _ _ i (by simpa using h)]
      exact getD_replicate_of_lt h
    · rw [if_neg h,
        List.getD_append_right _ _ _ i (by simpa using not_lt.mp h)]
      apply getD_replicate_of_lt
      simp only [List.length_replicate]
      omega
  refine ⟨?_, ?_, hget, ?_, ?_⟩
  · rw [hform]
    simp only [List.length_append, List.length_replicate]
    omega
  · rw [hform, List.sum_append, List.sum_replicate, List.sum_replicate,
      smul_eq_mul, smul_eq_mul]
    have h1 := Nat.div_add_mod W N
    zify [hle]
    zify at h1
    linear_combination h1
  · intro i j hij hj
    rw [hget i (lt_of_le_of_lt hij hj), hget j hj]
    split <;> split <;> omega
  · intro i j hi hj
    rw [hget i hi, hget j hj]
    split <;> split <;> omega

/-- Witness for C5 at `W = 10`, `N = 3`. -/
theorem divisionOfLabor_sound_witness :
    (divisionOfLabor 10 3).length = 3 ∧
    (divisionOfLabor 10 3).sum = 10 ∧
    (∀ i, i < 3 → (divisionOfLabor 10 3).getD i 0 =
      if i < 10 % 3 then 10 / 3 + 1 else 10 / 3) ∧
    (∀ i j, i ≤ j → j < 3 →
      (divisionOfLabor 10 3).getD j 0 ≤ (divisionOfLabor 10 3).getD i 0) ∧
    (∀ i j, i < 3 → j < 3 →
      (divisionOfLabor 10 3).getD i 0 ≤ (divisionOfLabor 10 3).getD j 0 + 1) :=
  divisionOfLabor_sound 10 3 (by decide)

/-- If no seed from `t` up to (excluding) `s` fully matches, the completion
flag stays down until the worker reaches `s`, where it records `(s, 100)`. -/
theorem bruteForceAux_mem_of_first_full (gen : ℕ → ℕ → ℕ) (obs : List ℕ)
    (minConf : ℚ) (depth s : ℕ) (hne : obs ≠ []) (hconf : minConf ≤ 100)
    (hfull : bfMatches (gen s) obs depth = obs.length) :
    ∀ (fuel t : ℕ), t ≤ s → s - t < fuel →
      (∀ s', t ≤ s' → s' < s → bfMatches (gen s') obs depth ≠ obs.length) →
      (s, (100 : ℚ)) ∈ (bruteForceAux gen obs minConf depth fuel t false).1 := by
  intro fuel
  induction fuel with
  | zero => intro t ht hlt _; omega
  | succ fuel ih =>
    intro t ht hlt hprev
    simp only [bruteForceAux, Bool.false_eq_true, if_false]
    rcases eq_or_lt_of_le ht with heq | hlt2
    · subst heq
      have hc : bfConfidence (bfMatches (gen t) obs depth) obs = 100 := by
        rw [hfull]
        exact bfConfidence_full obs hne
      rw [hc, if_pos hconf]
      exact List.mem_append_left _ (List.mem_singleton.mpr rfl)
    · have hnf : bfMatches (gen t) obs depth ≠ obs.length :=
        hprev t le_rfl hlt2
      rw [if_neg hnf]
      apply List.mem_append_right
      exact ih (t + 1) (by omega) (by omega)
        (fun s' hs1 hs2 => hprev s' (by omega) hs2)

/-- Claim C1 (amended): if the non-empty observation sequence is an in-order
subsequence of the first `depth` outputs of a generator seeded with `s`, the
minimum confidence is at most `100`, `s` lies in the worker's inclusive
interval, and — forced by the counterexample — no earlier seed of the
interval attains a full match within `depth` steps, then the worker records
`(s, 100)`.  In particular this holds when the observations are the first
`K` outputs of seed `s` and `depth ≥ K`. -/
theorem bruteforce_first_full_match_reported (gen : ℕ → ℕ → ℕ)
    (obs : List ℕ) (minConf : ℚ) (startS endS depth s : ℕ)
    (hne : obs ≠ []) (hconf : minConf ≤ 100)
    (h1 : startS ≤ s) (h2 : s ≤ endS)
    (hsub : List.Sublist obs (firstOutputs gen s depth))
    (hfirst : ∀ s', startS ≤ s' → s' < s →
      bfMatches (gen s') obs depth ≠ obs.length) :
    (s, (100 : ℚ)) ∈ bruteForce gen obs minConf startS endS depth := by
  rw [bruteForce]
  exact bruteForceAux_mem_of_first_full gen obs minConf depth s hne hconf
    (bfMatches_full_of_sublist gen obs s depth hne hsub)
    (endS + 1 - startS) startS h1 (by omega) hfirst

/-- Witness for the amended C1: seed `7` of interval `[5, 9]` is the first
full match for observations `[7]` at depth `1` and is reported with
confidence `100`. -/
theorem bruteforce_first_full_match_reported_witness :
    (7, (100 : ℚ)) ∈ bruteForce (fun s i => s + i) [7] 100 5 9 1 :=
  bruteforce_first_full_match_reported (fun s i => s + i) [7] 100 5 9 1 7
    (by decide) (le_refl 100) (by decide) (by decide) (by decide)
    (fun s' h1 h2 => by interval_cases s' <;> decide)

/-- Claim C1 is false as stated: with the constant generator, observations
`[5]`, depth `1`, minimum confidence `100` and worker interval `[0, 1]`,
seed `1` satisfies the subsequence hypothesis, yet `(1, 100)` is not in the
answer list — seed `0` matches first, raises the completion flag, and the
worker breaks out of its interval before recording seed `1`. -/
theorem bruteforce_roundtrip_counterexample :
    List.Sublist [5] (firstOutputs (fun _ _ => 5) 1 1) ∧
    (1, (100 : ℚ)) ∉ bruteForce (fun _ _ => 5) [5] 100 0 1 1 := by
  constructor
  · decide
  · intro hmem
    norm_num [bruteForce, bruteForceAux, bfMatches, bfMatchesAux,
      bfConfidence] at hmem

/-- Every answer a worker run appends carries the confidence of its own
seed's matching loop, and passed the `minimumConfidence <= confidence`
test. -/
theorem mem_bruteForceAux (gen : ℕ → ℕ → ℕ) (obs : List ℕ) (minConf : ℚ)
    (depth : ℕ) :
    ∀ (fuel t : ℕ) (flag : Bool) (p : ℕ × ℚ),
      p ∈ (bruteForceAux gen obs minConf depth fuel t flag).1 →
      minConf ≤ p.2 ∧
        p.2 = bfConfidence (bfMatches (gen p.1) obs depth) obs := by
  intro fuel
  induction fuel with
  | zero => intro t flag p hp; simp [bruteForceAux] at hp
  | succ fuel ih =>
    intro t flag p hp
    simp only [bruteForceAux] at hp
    cases flag with
    | true => simp at hp
    | false =>
      simp only [Bool.false_eq_true, if_false] at hp
      rcases List.mem_append.mp hp with h | h
      · by_cases hc : minConf ≤ bfConfidence (bfMatches (gen t) obs depth) obs
        · rw [if_pos hc] at h
          rcases List.mem_singleton.mp h with rfl
          exact ⟨hc, rfl⟩
        · rw [if_neg hc] at h
          simp at h
      · exact ih (t + 1) _ p h

/-- Claim C8 (amended): every answer `(seed, confidence)` appended by a
brute-force worker satisfies `minConf ≤ confidence` and
`0 ≤ confidence ≤ 100`; whenever the minimum-confidence parameter is
positive (as `main`'s argument validation guarantees), the confidence is
strictly positive and a zero-match seed is never recorded.  With minimum
confidence `0` — forced by the counterexample — a zero-match seed is
recorded with confidence exactly `0`. -/
theorem reported_confidence_bounds (gen : ℕ → ℕ → ℕ) (obs : List ℕ)
    (minConf : ℚ) (startS endS depth : ℕ) (hne : obs ≠ []) (p : ℕ × ℚ)
    (hp : p ∈ bruteForce gen obs minConf startS endS depth) :
    minConf ≤ p.2 ∧ 0 ≤ p.2 ∧ p.2 ≤ 100 ∧ (0 < minConf → 0 < p.2) := by
  rw [bruteForce] at hp
  obtain ⟨h1, h2⟩ := mem_bruteForceAux gen obs minConf depth _ _ _ p hp
  have hlen : 0 < obs.length := List.length_pos.mpr hne
  have hm : bfMatches (gen p.1) obs depth ≤ obs.length :=
    bfMatchesAux_le _ _ depth 0 0 hlen
  refine ⟨h1, ?_, ?_, fun h0 => lt_of_lt_of_le h0 h1⟩
  · rw [h2, bfConfidence]
    positivity
  · rw [h2, bfConfidence]
    have hq : (bfMatches (gen p.1) obs depth : ℚ) / obs.length ≤ 1 := by
      rw [div_le_one (by exact_mod_cast hlen)]
      exact_mod_cast hm
    have := mul_le_mul_of_nonneg_right hq (by norm_num : (0:ℚ) ≤ 100)
    linarith

/-- Witness for the amended C8: the answer `(0, 0)` recorded at minimum
confidence `0` obeys the amended bounds. -/
theorem reported_confidence_bounds_witness :
    (0 : ℚ) ≤ ((0 : ℕ), (0 : ℚ)).2 ∧ (0 : ℚ) ≤ ((0 : ℕ), (0 : ℚ)).2 ∧
      ((0 : ℕ), (0 : ℚ)).2 ≤ 100 ∧ ((0 : ℚ) < 0 → (0 : ℚ) < ((0 : ℕ), (0 : ℚ)).2) :=
  reported_confidence_bounds (fun _ _ => 0) [1] 0 0 0 1 (by decide)
    ((0 : ℕ), (0 : ℚ))
    (by simp [bruteForce, bruteForceAux, bfMatches, bfMatchesAux, bfConfidence])

/-- Claim C8 is false as stated: with minimum confidence `0` the worker
records the pair `(0, 0)` — a seed matching zero observations, with
confidence not strictly greater than `0`. -/
theorem zero_confidence_reported_counterexample :
    (0, (0 : ℚ)) ∈ bruteForce (fun _ _ => 0) [1] 0 0 0 1 ∧
      ¬ (0 : ℚ) < 0 := by
  constructor
  · norm_num [bruteForce, bruteForceAux, bfMatches, bfMatchesAux,
      bfConfidence]
  · exact lt_irrefl 0

/-- Taking one more element adds `getD` of the next index to the sum (also
past the end, where both sides coincide). -/
theorem sum_take_succ_getD (l : List ℕ) :
    ∀ (i : ℕ), (l.take (i + 1)).sum = (l.take i).sum + l.getD i 0 := by
  induction l with
  | nil => intro i; simp
  | cons a l ih =>
    intro i
    cases i with
    | zero => simp
    | succ i =>
      simp only [List.take_succ_cons, List.sum_cons, List.getD_cons_succ,
        ih i]
      omega

/-- Claim C4 (amended): the half-open intervals
`[startAt_i, startAt_i + labor_i)` handed out by `SpawnThreads` are pairwise
disjoint — for `i < j` worker `i`'s half-open interval ends no later than
worker `j`'s start — but each worker's inclusive right endpoint *equals*
the next worker's start, so (forced by the counterexample) each boundary
seed is tested by two adjacent workers. -/
theorem halfopen_intervals_disjoint (lower W N : ℕ) :
    (∀ i j, i < j →
      (workerInterval lower W N i).2 ≤ (workerInterval lower W N j).1) ∧
    (∀ i, (workerInterval lower W N i).2 =
      (workerInterval lower W N (i + 1)).1) := by
  have hsucc : ∀ i, (workerInterval lower W N i).2 =
      (workerInterval lower W N (i + 1)).1 := by
    intro i
    simp only [workerInterval, workerStart]
    rw [sum_take_succ_getD]
    omega
  refine ⟨?_, hsucc⟩
  intro i j hij
  induction j with
  | zero => omega
  | succ j ihj =>
    rcases Nat.lt_succ_iff_lt_or_eq.mp hij with h | h
    · calc (workerInterval lower W N i).2 ≤ (workerInterval lower W N j).1 :=
            ihj h
        _ ≤ (workerInterval lower W N (j + 1)).1 := by
            rw [← hsucc j]
            simp only [workerInterval]
            omega
    · exact le_of_eq (h ▸ hsucc i)

/-- Witness for the amended C4 at `lower = 0`, `W = 10`, `N = 2`. -/
theorem halfopen_intervals_disjoint_witness :
    (workerInterval 0 10 2 0).2 ≤ (workerInterval 0 10 2 1).1 ∧
    (workerInterval 0 10 2 0).2 = (workerInterval 0 10 2 1).1 :=
  ⟨(halfopen_intervals_disjoint 0 10 2).1 0 1 (by decide),
   (halfopen_intervals_disjoint 0 10 2).2 0⟩

/-- Claim C4 is false as stated: with `lower = 0`, `upper = 10` and two
workers, seed `5` lies in both workers' inclusive scan ranges, and with
observations `[5]` both workers' answer lists contain the duplicate entry
`(5, 100)`. -/
theorem interval_overlap_counterexample :
    ((workerInterval 0 10 2 0).1 ≤ 5 ∧ 5 ≤ (workerInterval 0 10 2 0).2) ∧
    ((workerInterval 0 10 2 1).1 ≤ 5 ∧ 5 ≤ (workerInterval 0 10 2 1).2) ∧
    (5, (100 : ℚ)) ∈ bruteForce (fun s _ => s) [5] 100
      (workerInterval 0 10 2 0).1 (workerInterval 0 10 2 0).2 1 ∧
    (5, (100 : ℚ)) ∈ bruteForce (fun s _ => s) [5] 100
      (workerInterval 0 10 2 1).1 (workerInterval 0 10 2 1).2 1 := by
  refine ⟨by decide, by decide, ?_, ?_⟩ <;>
    norm_num [workerInterval, workerStart, divisionOfLabor,
      divisionOfLaborAux, bruteForce, bruteForceAux, bfMatches, bfMatchesAux,
      bfConfidence]

/-- Concrete latch states for exercising the completion-flag step relation:
one worker at progress `0` of `10`, reporter mid-body. -/
def latchS0 : LatchState := ⟨false, [0], 10, none⟩

def latchS1 : LatchState := ⟨false, [0], 10, some (aggregatePercent [0] 10)⟩

def latchS2 : LatchState := ⟨true, [0], 10, some (aggregatePercent [0] 10)⟩

def latchS3 : LatchState :=
  ⟨decide ((100 : ℚ) ≤ aggregatePercent [0] 10), [0], 10, none⟩

/-- Claim C3 is false as stated: from an initial state with the flag clear,
the reporter computes a stale percent, a worker then latches the flag, and
the reporter's subsequent store of `100.0 <= percent` clears it again — a
reachable state with the flag set from which a step stores `false`. -/
theorem latch_cleared_counterexample :
    LatchReachable latchS0 latchS2 ∧ latchS2.flag = true ∧
    LatchStep latchS2 latchS3 ∧ latchS3.flag = false := by
  refine ⟨?_, rfl, ?_, ?_⟩
  · exact Relation.ReflTransGen.tail
      (Relation.ReflTransGen.single
        (LatchStep.reporterCompute latchS0 rfl rfl))
      (LatchStep.workerSetFlag latchS1)
  · exact LatchStep.reporterStore latchS2 _ rfl
  · show decide ((100 : ℚ) ≤ aggregatePercent [0] 10) = false
    norm_num [aggregatePercent]

/-- Claim C3 (amended): a step can clear a set completion flag only if it is
the status reporter's store of `100.0 <= percent` and the percent the
reporter previously computed — possibly from progress read before the flag
was raised — is below `100`; in particular no brute-force worker step ever
stores `false` into the flag. -/
theorem latch_cleared_only_by_reporter_store (s s' : LatchState)
    (hstep : LatchStep s s') (hs : s.flag = true) (hs' : s'.flag = false) :
    ∃ p, s.pendingPercent = some p ∧ p < 100 := by
  cases hstep with
  | workerStatus id v => exact absurd hs' (by simp [hs])
  | workerSetFlag => simp at hs'
  | reporterCompute h1 h2 => rw [hs] at h1; simp at h1
  | reporterStore p hp =>
    refine ⟨p, hp, ?_⟩
    have hdec : decide ((100 : ℚ) ≤ p) = false := hs'
    exact lt_of_not_le (of_decide_eq_false hdec)

/-- Witness for the amended C3: a reporter store from pending percent `0`
clears the flag, and the theorem recovers that the pending percent was below
`100`. -/
theorem latch_cleared_only_by_reporter_store_witness :
    ∃ p, (LatchState.mk true [0] 10 (some 0)).pendingPercent = some p ∧
      p < 100 :=
  latch_cleared_only_by_reporter_store ⟨true, [0], 10, some 0⟩
    ⟨decide ((100 : ℚ) ≤ 0), [0], 10, none⟩
    (LatchStep.reporterStore ⟨true, [0], 10, some 0⟩ 0 rfl) rfl (by decide)

/-- A non-empty window loop always examines at least one window. -/
theorem inferLoopAux_snd_pos {σ : Type} (P : PRNGops σ) (obs : List ℕ)
    (k : ℕ) (count i : ℕ) (g : σ) (hs : ℚ) (best : List ℕ)
    (hc : 0 < count) : 1 ≤ (inferLoopAux P obs k count i g hs best).2 := by
  cases count with
  | zero => omega
  | succ c =>
    rw [inferLoopAux]
    by_cases hm : (windowEval P obs k i g).1 = obs.length - k
    · simp only [hm, if_true]
      rcases P.reverseToSeed 10000 (windowEval P obs k i g).2 with ⟨o, g6⟩
      cases o <;> simp
    · simp only [if_neg hm]
      omega

/-- Claim C7: when the observation count is at most the PRNG state size,
state inference reports the not-enough-observations outcome without
examining any window and the brute-force search still runs afterwards;
conversely, when there are more observations than state words the window
loop executes at least once. -/
theorem inferstate_insufficient_observations {σ : Type} (P : PRNGops σ)
    (obs : List ℕ) (g0 : σ) :
    (obs.length ≤ P.stateSize →
      inferState P obs g0 = .notEnough ∧ inferWindows P obs g0 = 0 ∧
        bruteForceRuns P obs g0 = true) ∧
    (P.stateSize < obs.length → 1 ≤ inferWindows P obs g0) := by
  constructor
  · intro h
    have haux : inferStateAux P obs g0 = (.notEnough, 0) := by
      rw [inferStateAux, if_pos h]
    refine ⟨by rw [inferState, haux], by rw [inferWindows, haux], ?_⟩
    rw [bruteForceRuns, inferState, haux]
    rfl
  · intro h
    rw [inferWindows, inferStateAux, if_neg (by omega)]
    exact inferLoopAux_snd_pos P obs P.stateSize _ 0 g0 0 [] (by omega)

/-- Witness for C7: the toy generator with one observation warns and the
brute force still runs; with two observations at least one window is
examined. -/
theorem inferstate_insufficient_observations_witness :
    (inferState toyPRNG [3] [] = .notEnough ∧
      inferWindows toyPRNG [3] [] = 0 ∧
      bruteForceRuns toyPRNG [3] [] = true) ∧
    1 ≤ inferWindows toyPRNG [3, 3] [] :=
  ⟨(inferstate_insufficient_observations toyPRNG [3] []).1 (by decide),
   (inferstate_insufficient_observations toyPRNG [3, 3] []).2 (by decide)⟩

/-- If window `i` is the first whose combined match count is perfect, the
loop's result is decided by `reverse_to_seed` with `max_iter = 10000` on the
generator state of that window. -/
theorem inferLoopAux_first_perfect {σ : Type} (P : PRNGops σ)
    (obs : List ℕ) (k i : ℕ) (g0 : σ)
    (hperf : (windowEval P obs k i (genAt P obs k g0 i)).1 = obs.length - k) :
    ∀ (count b : ℕ) (hs : ℚ) (best : List ℕ),
      b ≤ i → i < b + count →
      (∀ j, b ≤ j → j < i →
        (windowEval P obs k j (genAt P obs k g0 j)).1 ≠ obs.length - k) →
      (inferLoopAux P obs k count b (genAt P obs k g0 b) hs best).1 =
        (match P.reverseToSeed 10000
            (windowEval P obs k i (genAt P obs k g0 i)).2 with
          | (some outSeed, _) => InferResult.foundSeed outSeed
          | (none, g6) => InferResult.foundState (P.getState g6)) := by
  intro count
  induction count with
  | zero => intro b hs best hb hib _; omega
  | succ c ih =>
    intro b hs best hb hib hprev
    rw [inferLoopAux]
    rcases eq_or_lt_of_le hb with heq | hlt
    · subst heq
      simp only [hperf, if_true]
      rcases P.reverseToSeed 10000 (windowEval P obs k b (genAt P obs k g0 b)).2
        with ⟨o, g6⟩
      cases o <;> rfl
    · rw [if_neg (hprev b le_rfl hlt)]
      have hg : genAt P obs k g0 (b + 1) =
          (windowEval P obs k b (genAt P obs k g0 b)).2 := rfl
      simp only [← hg]
      exact ih (b + 1) hs _ (by omega) (by omega)
        (fun j h1 h2 => hprev j (by omega) h2)

/-- Claim C6: for the first window index whose combined forward-plus-
backward match count equals `n - k`, the engine calls `reverse_to_seed`
with `max_iter = 10000`; if the call succeeds the recovered seed is
reported, otherwise the recovered state words are; either way inference
reports a match and `main` exits without running the brute-force seed
search. -/
theorem inferstate_first_perfect_window {σ : Type} (P : PRNGops σ)
    (obs : List ℕ) (g0 : σ) (i : ℕ)
    (hk : P.stateSize < obs.length)
    (hik : i < obs.length - P.stateSize)
    (hprev : ∀ j, j < i →
      (windowEval P obs P.stateSize j (genAt P obs P.stateSize g0 j)).1 ≠
        obs.length - P.stateSize)
    (hperf : (windowEval P obs P.stateSize i
        (genAt P obs P.stateSize g0 i)).1 = obs.length - P.stateSize) :
    inferState P obs g0 =
      (match P.reverseToSeed 10000
          (windowEval P obs P.stateSize i (genAt P obs P.stateSize g0 i)).2 with
        | (some outSeed, _) => InferResult.foundSeed outSeed
        | (none, g6) => InferResult.foundState (P.getState g6)) ∧
    bruteForceRuns P obs g0 = false := by
  have hres : inferState P obs g0 =
      (match P.reverseToSeed 10000
          (windowEval P obs P.stateSize i (genAt P obs P.stateSize g0 i)).2 with
        | (some outSeed, _) => InferResult.foundSeed outSeed
        | (none, g6) => InferResult.foundState (P.getState g6)) := by
    rw [inferState, inferStateAux, if_neg (by omega)]
    exact inferLoopAux_first_perfect P obs P.stateSize i g0 hperf
      (obs.length - P.stateSize) 0 0 [] (by omega) (by omega)
      (fun j _ hj => hprev j hj)
  refine ⟨hres, ?_⟩
  rw [bruteForceRuns, hres]
  rcases P.reverseToSeed 10000
      (windowEval P obs P.stateSize i (genAt P obs P.stateSize g0 i)).2
    with ⟨o, g6⟩
  cases o <;> rfl

/-- Witness for C6: observations `[3, 3]` give the toy generator a perfect
window at index `0`; its reversal succeeds, so the seed is reported and the
brute force is skipped. -/
theorem inferstate_first_perfect_window_witness :
    inferState toyPRNG [3, 3] [] =
      (match toyPRNG.reverseToSeed 10000
          (windowEval toyPRNG [3, 3] toyPRNG.stateSize 0
            (genAt toyPRNG [3, 3] toyPRNG.stateSize [] 0)).2 with
        | (some outSeed, _) => InferResult.foundSeed outSeed
        | (none, g6) => InferResult.foundState (toyPRNG.getState g6)) ∧
    bruteForceRuns toyPRNG [3, 3] [] = false :=
  inferstate_first_perfect_window toyPRNG [3, 3] [] 0 (by decide) (by decide)
    (fun j hj => absurd hj (Nat.not_lt_zero j)) (by decide)

/-- Claim C2 exposes a defect the code's own TODO marks: on observations
`[1, 1, 2]` the toy generator's window `0` attains a positive yet imperfect
combined match count, so per the specification the best-scoring state should
be reported; but `highscore` is never reassigned from `0`, so `InferState`
reports failure. -/
theorem inferstate_positive_score_still_fails :
    0 < (windowEval toyPRNG [1, 1, 2] toyPRNG.stateSize 0 []).1 ∧
    (windowEval toyPRNG [1, 1, 2] toyPRNG.stateSize 0 []).1 ≠
      [1, 1, 2].length - toyPRNG.stateSize ∧
    inferState toyPRNG [1, 1, 2] [] = .failed := by
  refine ⟨by decide, by decide, ?_⟩
  norm_num [inferState, inferStateAux, inferLoopAux, windowEval, fwdCount,
    bwdCount, toyPRNG, genAt]

end Untwister
